import Mathlib

/-!
# Verification of the corise-dagster stock pipeline

Shallow embedding of the two pipeline variants in this repository:
`src/week_1/project/week_1.py` and `src/week_2/workspaces/project/week_2.py`.

The computational core is:
* `Stock.from_list` — positional parsing of a 6-field raw row
  (date, close, volume, open, high, low);
* `process_data` — a linear `max` scan over the `high` field (Python's
  builtin `max` with a key function, which replaces the running best only
  on a strictly greater key, so the first maximal element wins ties);
* `get_s3_data` — parse every raw row in order, aborting on the first
  parse failure (Python list comprehension / generator semantics);
* `put_redis_data` — in week_2, one `put` into the redis cache keyed by
  the string form of the date; in week_1 the body is `pass` (a no-op).

Machine floats are modelled as exact rationals `ℚ` (every literal the
pipeline's claims touch is a small decimal, exactly representable);
Python's `datetime` is modelled as a calendar date record (the time part
of a `%Y/%m/%d` strptime is always midnight); exceptions are modelled
with `Except` over an error-kind type matching the spec's taxonomy.
-/

deriving instance DecidableEq for Except

/-- Error kinds, following the spec's taxonomy (§7).  Python raises
`ValueError` both for malformed fields (`ParseError`) and for `max` on an
empty sequence (`EmptyInputError`); the spec distinguishes the kinds, so
the embedding does too.  `IndexError` covers a row shorter than 6 fields. -/
inductive Err where
  | ParseError
  | EmptyInputError
  | IndexError
  | SourceNotFoundError
  | WriteError
deriving DecidableEq, Repr

/-- Calendar date, the result of `datetime.strptime(s, "%Y/%m/%d")`
(whose time-of-day part is always 00:00:00). -/
structure Date where
  year : Nat
  month : Nat
  day : Nat
deriving DecidableEq, Repr

/-- Value of a decimal digit character. -/
def digitVal (c : Char) : Option Nat :=
  if c.isDigit then some (c.toNat - 48) else none

/-- Value of a (possibly empty) all-digit character run; `none` when any
character is not a digit. -/
def digitsVal (cs : List Char) : Option Nat :=
  cs.foldl (fun acc c => acc.bind fun a => (digitVal c).map fun d => 10 * a + d)
    (some 0)

/-- Split a character list at every occurrence of `c` (so
`"a/b/c"` gives three groups). -/
def splitOnChar (c : Char) : List Char → List (List Char)
  | [] => [[]]
  | x :: xs =>
    if x = c then [] :: splitOnChar c xs
    else
      match splitOnChar c xs with
      | [] => [[x]]
      | g :: gs => (x :: g) :: gs

/-- Gregorian leap-year test, as Python's `calendar`/`datetime` use. -/
def isLeap (y : Nat) : Bool :=
  (y % 4 == 0 && y % 100 != 0) || y % 400 == 0

/-- Number of days in a month. -/
def daysInMonth (y m : Nat) : Nat :=
  if m = 2 then (if isLeap y then 29 else 28)
  else if m = 4 ∨ m = 6 ∨ m = 9 ∨ m = 11 then 30
  else 31

/-- Model of `datetime.strptime(s, "%Y/%m/%d")`: three slash-separated digit runs,
year in `datetime`'s 1..9999 range, month 1..12, day valid for the month;
any other shape or range is a parse failure. -/
def parseDate (s : String) : Option Date :=
  match splitOnChar '/' s.data with
  | [a, b, c] =>
    match a, digitsVal a, digitsVal b, digitsVal c with
    | _ :: _, some y, some m, some d =>
      if b ≠ [] ∧ c ≠ [] ∧ 1 ≤ y ∧ y ≤ 9999 ∧ 1 ≤ m ∧ m ≤ 12 ∧ 1 ≤ d ∧
          d ≤ daysInMonth y m then
        some ⟨y, m, d⟩
      else none
    | _, _, _, _ => none
  | _ => none

/-- Unsigned decimal literal: digit run with an optional point and
optional fractional digit run, at least one digit overall.  This is the
fragment of Python's `float()` grammar the pipeline's data exercises
(no exponent, no `inf`/`nan`, no surrounding whitespace). -/
def parseUnsignedDec (cs : List Char) : Option ℚ :=
  match splitOnChar '.' cs with
  | [a] =>
    match a, digitsVal a with
    | _ :: _, some n => some (mkRat n 1)
    | _, _ => none
  | [a, b] =>
    if a = [] ∧ b = [] then none
    else
      match digitsVal a, digitsVal b with
      | some n, some m => some (mkRat (n * 10 ^ b.length + m) (10 ^ b.length))
      | _, _ => none
  | _ => none

/-- Model of `float(s)` on a (possibly signed) decimal literal. -/
def parseFloat (s : String) : Option ℚ :=
  match s.data with
  | '-' :: rest => (parseUnsignedDec rest).map fun q => -q
  | '+' :: rest => parseUnsignedDec rest
  | cs => parseUnsignedDec cs

/-- Python `int()` applied to a float: truncation toward zero
(`Int.tdiv` is T-division, exactly Python's `int(float)` coercion). -/
def truncQ (q : ℚ) : Int :=
  q.num.tdiv (q.den : Int)

/-- The `class Stock(BaseModel)` of `week_1.py` (week_2 imports the identical
class from `workspaces.types`, which the spec describes as the single
`StockRecord` model). -/
structure Stock where
  date : Date
  close : ℚ
  volume : Int
  «open» : ℚ
  high : ℚ
  low : ℚ
deriving DecidableEq, Repr

/-- The `class Aggregation(BaseModel)` record. -/
structure Aggregation where
  date : Date
  high : ℚ
deriving DecidableEq, Repr

/-- Indexing `input_list[i]`: Python raises `IndexError` past the end. -/
def getField (row : List String) (i : Nat) : Except Err String :=
  match row[i]? with
  | some s => .ok s
  | none => .error .IndexError

/-- The `Stock.from_list` classmethod of `week_1.py`: positional parsing of a raw row,
fields in source order `date, close, volume, open, high, low`; the
constructor arguments are evaluated left to right, each indexing the row
and then converting the text, and the first failure aborts (a failed
conversion is the spec's `ParseError` kind). -/
def Stock.from_list (row : List String) : Except Err Stock :=
  match getField row 0 with
  | .error e => .error e
  | .ok s0 =>
    match parseDate s0 with
    | none => .error .ParseError
    | some date =>
      match getField row 1 with
      | .error e => .error e
      | .ok s1 =>
        match parseFloat s1 with
        | none => .error .ParseError
        | some close =>
          match getField row 2 with
          | .error e => .error e
          | .ok s2 =>
            match parseFloat s2 with
            | none => .error .ParseError
            | some vol =>
              match getField row 3 with
              | .error e => .error e
              | .ok s3 =>
                match parseFloat s3 with
                | none => .error .ParseError
                | some o =>
                  match getField row 4 with
                  | .error e => .error e
                  | .ok s4 =>
                    match parseFloat s4 with
                    | none => .error .ParseError
                    | some high =>
                      match getField row 5 with
                      | .error e => .error e
                      | .ok s5 =>
                        match parseFloat s5 with
                        | none => .error .ParseError
                        | some low =>
                          .ok { date := date, close := close,
                                volume := truncQ vol, «open» := o,
                                high := high, low := low }

/-- One step of Python's builtin `max` with a key on `high`: the running
best is replaced only when the new key is strictly greater. -/
def maxStep (best y : Stock) : Stock :=
  if best.high < y.high then y else best

namespace Week1

/-- The `process_data` op of `week_1.py`:
`max(stocks, key=attrgetter('high'))`, then package date and high.
Python's `max` raises on an empty sequence (the spec's `EmptyInputError`
kind) and otherwise folds left keeping the first maximal element. -/
def process_data (stocks : List Stock) : Except Err Aggregation :=
  match stocks with
  | [] => .error .EmptyInputError
  | x :: xs =>
    let highest := xs.foldl maxStep x
    .ok { date := highest.date, high := highest.high }

/-- The `get_s3_data` op and `csv_helper` of `week_1.py`: parse each csv row in
order into a `Stock`; the input rows stand for the csv file's contents
(file IO itself is the excluded external collaborator).  `list(...)` over
the generator aborts on the first raised error, yielding no list at all. -/
def get_s3_data : List (List String) → Except Err (List Stock)
  | [] => .ok []
  | row :: rest =>
    match Stock.from_list row with
    | .error e => .error e
    | .ok s =>
      match get_s3_data rest with
      | .error e => .error e
      | .ok ss => .ok (s :: ss)

end Week1

/-- The redis cache, as the key-value map the `put` interface mutates. -/
abbrev RedisStore := String → Option String

/-- The cache write `redis.put_data(name, value)`: overwrite-at-key, last write wins. -/
def redisPut (store : RedisStore) (name value : String) : RedisStore :=
  fun k => if k = name then some value else store k

/-- Python `str(n)` on an integer, for non-negative and negative values. -/
def pyStrInt (n : Int) : String :=
  toString n

/-- Zero-pad a numeral to two digits, as `datetime.__str__` does. -/
def pad2 (n : Nat) : String :=
  if n < 10 then "0" ++ toString n else toString n

/-- Zero-pad a year to four digits, as `datetime.__str__` does. -/
def pad4 (n : Nat) : String :=
  if n < 10 then "000" ++ toString n
  else if n < 100 then "00" ++ toString n
  else if n < 1000 then "0" ++ toString n
  else toString n

/-- Python `str(agg.date)`: a `%Y/%m/%d`-parsed `datetime` prints as
`YYYY-MM-DD 00:00:00`. -/
def pyStrDate (d : Date) : String :=
  pad4 d.year ++ "-" ++ pad2 d.month ++ "-" ++ pad2 d.day ++ " 00:00:00"

/-- Python `str(agg.high)`: decimal rendering of the (exact-rational-modelled)
float, integer part, point, then the fractional numerator over the
power-of-ten denominator; for the whole-number floats the pipeline
produces this is Python's `"105.0"` shape. -/
def pyStrFloat (q : ℚ) : String :=
  if q.den = 1 then toString q.num ++ ".0"
  else toString q.num ++ "/" ++ toString q.den

namespace Week1

/-- The `put_redis_data` op of `week_1.py`: the body is `pass` — it performs no
write (the cache is returned unchanged) and returns Python's `None`,
modelled as `Unit`. -/
def put_redis_data (redis : RedisStore) (_agg : Aggregation) :
    RedisStore × Unit :=
  (redis, ())

end Week1

namespace Week2

/-- The `process_data` op of `week_2.py`:
`max(stocks, key=lambda stock: stock.high)` — the same reduction as
week_1's (`attrgetter('high')` and the lambda are the same key). -/
def process_data (stocks : List Stock) : Except Err Aggregation :=
  match stocks with
  | [] => .error .EmptyInputError
  | x :: xs =>
    let highest := xs.foldl maxStep x
    .ok { date := highest.date, high := highest.high }

/-- The `get_s3_data` op of `week_2.py`: `[Stock.from_list(item) for item in
s3.get_data(key)]` — the rows stand for the object-store payload; the
comprehension aborts on the first parse failure. -/
def get_s3_data : List (List String) → Except Err (List Stock)
  | [] => .ok []
  | row :: rest =>
    match Stock.from_list row with
    | .error e => .error e
    | .ok s =>
      match get_s3_data rest with
      | .error e => .error e
      | .ok ss => .ok (s :: ss)

/-- The `put_redis_data` op of `week_2.py`:
`context.resources.redis.put_data(name=str(agg.date), value=str(agg.high))`
— exactly one cache put, keyed by the date string. -/
def put_redis_data (redis : RedisStore) (agg : Aggregation) : RedisStore :=
  redisPut redis (pyStrDate agg.date) (pyStrFloat agg.high)

end Week2

/-! ## Properties of the `max`-scan fold -/

/-- If nothing in the list beats the accumulator's `high`, the scan keeps
the accumulator (Python's `max` never replaces the best on a tie). -/
theorem foldl_maxStep_of_le (xs : List Stock) (acc : Stock)
    (h : ∀ y ∈ xs, y.high ≤ acc.high) : xs.foldl maxStep acc = acc := by
  induction xs with
  | nil => rfl
  | cons y ys ih =>
    have hy : maxStep acc y = acc := by
      simp [maxStep, not_lt.2 (h y (List.mem_cons_self y ys))]
    rw [List.foldl_cons, hy]
    exact ih fun z hz => h z (List.mem_cons_of_mem y hz)

/-- The scan result is the accumulator or an element of the list. -/
theorem foldl_maxStep_mem (xs : List Stock) (acc : Stock) :
    xs.foldl maxStep acc = acc ∨ xs.foldl maxStep acc ∈ xs := by
  induction xs generalizing acc with
  | nil => exact Or.inl rfl
  | cons y ys ih =>
    rw [List.foldl_cons]
    rcases ih (maxStep acc y) with h | h
    · rw [h]
      unfold maxStep
      split
      · exact Or.inr (List.mem_cons_self y ys)
      · exact Or.inl rfl
    · exact Or.inr (List.mem_cons_of_mem y h)

/-- The accumulator's `high` never decreases along the scan. -/
theorem le_foldl_maxStep_acc (xs : List Stock) (acc : Stock) :
    acc.high ≤ (xs.foldl maxStep acc).high := by
  induction xs generalizing acc with
  | nil => exact le_refl _
  | cons y ys ih =>
    rw [List.foldl_cons]
    refine le_trans ?_ (ih (maxStep acc y))
    unfold maxStep
    split
    · exact le_of_lt (by assumption)
    · exact le_refl _

/-- Every element's `high` is bounded by the scan result's `high`. -/
theorem le_foldl_maxStep_of_mem (xs : List Stock) (y : Stock) :
    ∀ acc : Stock, y ∈ xs → y.high ≤ (xs.foldl maxStep acc).high := by
  induction xs with
  | nil => exact fun acc hy => absurd hy (List.not_mem_nil y)
  | cons z zs ih =>
    intro acc hy
    rw [List.foldl_cons]
    rcases List.mem_cons.1 hy with rfl | hy'
    · refine le_trans ?_ (le_foldl_maxStep_acc zs (maxStep acc y))
      unfold maxStep
      split
      · exact le_refl _
      · exact not_lt.1 (by assumption)
    · exact ih (maxStep acc z) hy'

/-- Firstness of the scan: if the element at position `i` attains the
overall maximum, strictly beats the accumulator, and no earlier element
attains the maximum, the scan returns exactly the element at `i`. -/
theorem foldl_maxStep_first (xs : List Stock) (acc : Stock) (i : Nat)
    (hi : i < xs.length)
    (hacc : acc.high < (xs.get ⟨i, hi⟩).high)
    (hmax : ∀ k (hk : k < xs.length), (xs.get ⟨k, hk⟩).high ≤ (xs.get ⟨i, hi⟩).high)
    (hfirst : ∀ k (hk : k < i),
      (xs.get ⟨k, Nat.lt_trans hk hi⟩).high < (xs.get ⟨i, hi⟩).high) :
    xs.foldl maxStep acc = xs.get ⟨i, hi⟩ := by
  induction xs generalizing acc i with
  | nil => exact absurd hi (Nat.not_lt_zero i)
  | cons y ys ih =>
    match i with
    | 0 =>
      rw [List.foldl_cons]
      have hacc0 : acc.high < y.high := hacc
      have hstep : maxStep acc y = y := by simp [maxStep, hacc0]
      rw [hstep]
      show List.foldl maxStep y ys = y
      refine foldl_maxStep_of_le ys y fun z hz => ?_
      rcases List.mem_iff_get.1 hz with ⟨⟨n, hn⟩, rfl⟩
      exact hmax (n + 1) (Nat.succ_lt_succ hn)
    | i' + 1 =>
      rw [List.foldl_cons]
      have hi' : i' < ys.length := Nat.lt_of_succ_lt_succ hi
      have htarget : (y :: ys).get ⟨i' + 1, hi⟩ = ys.get ⟨i', hi'⟩ := rfl
      rw [htarget] at hacc hmax hfirst ⊢
      have hstep : (maxStep acc y).high < (ys.get ⟨i', hi'⟩).high := by
        unfold maxStep
        split
        · exact hfirst 0 (Nat.succ_pos i')
        · exact hacc
      exact ih (maxStep acc y) i' hi' hstep
        (fun k hk => hmax (k + 1) (Nat.succ_lt_succ hk))
        (fun k hk => hfirst (k + 1) (Nat.succ_lt_succ hk))

/-! ## Claim theorems -/

/-- C1: for every non-empty list of stock records, the Aggregator
(`process_data`, week_1 and week_2 alike) returns an `Aggregation` whose
`high` field equals the maximum of the `high` fields of the input. -/
theorem process_data_high_eq_maximum (stocks : List Stock)
    (h : stocks ≠ []) :
    ∃ r : Aggregation, Week1.process_data stocks = .ok r ∧
      Week2.process_data stocks = .ok r ∧
      (stocks.map Stock.high).maximum = (r.high : WithBot ℚ) := by
  match stocks with
  | [] => exact absurd rfl h
  | x :: xs =>
    refine ⟨⟨(xs.foldl maxStep x).date, (xs.foldl maxStep x).high⟩, rfl, rfl, ?_⟩
    rw [List.maximum_eq_coe_iff]
    constructor
    · rcases foldl_maxStep_mem xs x with h1 | h1
      · rw [h1]
        exact List.mem_map_of_mem Stock.high (List.mem_cons_self x xs)
      · exact List.mem_map_of_mem Stock.high (List.mem_cons_of_mem x h1)
    · intro b hb
      rcases List.mem_map.1 hb with ⟨s, hs, rfl⟩
      rcases List.mem_cons.1 hs with rfl | hs'
      · exact le_foldl_maxStep_acc xs s
      · exact le_foldl_maxStep_of_mem xs s x hs'

/-- The §8 example: highs `[105, 110, 103]` on three dates. -/
def exampleStocks : List Stock :=
  [⟨⟨2024, 1, 1⟩, 0, 0, 0, 105, 0⟩, ⟨⟨2024, 1, 2⟩, 0, 0, 0, 110, 0⟩,
   ⟨⟨2024, 1, 3⟩, 0, 0, 0, 103, 0⟩]

/-- C1 witness: the theorem applied to the §8 example list. -/
theorem process_data_high_eq_maximum_witness :
    ∃ r : Aggregation, Week1.process_data exampleStocks = .ok r ∧
      Week2.process_data exampleStocks = .ok r ∧
      (exampleStocks.map Stock.high).maximum = (r.high : WithBot ℚ) :=
  process_data_high_eq_maximum exampleStocks (by decide)

/-- Three records all tied at the maximum `high` 5, distinct dates. -/
def threeTiedStocks : List Stock :=
  [⟨⟨2024, 1, 1⟩, 0, 0, 0, 5, 0⟩, ⟨⟨2024, 1, 2⟩, 0, 0, 0, 5, 0⟩,
   ⟨⟨2024, 1, 3⟩, 0, 0, 0, 5, 0⟩]

/-- C2 counterexample: in a three-way tie the records at positions
`1 < 2` both attain the maximum `high`, yet the Aggregator returns the
position-0 record's date, not the position-1 record's date — so "two
records at positions i < j both attain the maximum implies the result is
the date at position i" fails as stated. -/
theorem process_data_tiebreak_pair_counterexample :
    (∀ s ∈ threeTiedStocks, s.high ≤ 5) ∧
    (threeTiedStocks.get ⟨1, by decide⟩).high = 5 ∧
    (threeTiedStocks.get ⟨2, by decide⟩).high = 5 ∧
    Week1.process_data threeTiedStocks = .ok ⟨⟨2024, 1, 1⟩, 5⟩ ∧
    Week2.process_data threeTiedStocks = .ok ⟨⟨2024, 1, 1⟩, 5⟩ ∧
    (⟨2024, 1, 1⟩ : Date) ≠ (threeTiedStocks.get ⟨1, by decide⟩).date := by
  decide

/-- C2 (amended): if the records at positions `i < j` both attain the
maximum `high` and no record before position `i` attains it, the
Aggregator returns the date of the record at position `i` — the
first-encountered record attaining the maximum wins ties. -/
theorem process_data_tiebreak_first_attainer (stocks : List Stock)
    (i j : Nat) (hi : i < stocks.length) (hj : j < stocks.length)
    (hij : i < j)
    (hjmax : (stocks.get ⟨j, hj⟩).high = (stocks.get ⟨i, hi⟩).high)
    (hmax : ∀ k (hk : k < stocks.length),
      (stocks.get ⟨k, hk⟩).high ≤ (stocks.get ⟨i, hi⟩).high)
    (hfirst : ∀ k (hk : k < i),
      (stocks.get ⟨k, Nat.lt_trans hk hi⟩).high < (stocks.get ⟨i, hi⟩).high) :
    ∃ r : Aggregation, Week1.process_data stocks = .ok r ∧
      Week2.process_data stocks = .ok r ∧
      r.date = (stocks.get ⟨i, hi⟩).date ∧
      r.high = (stocks.get ⟨i, hi⟩).high := by
  cases stocks with
  | nil => exact absurd hi (Nat.not_lt_zero i)
  | cons x xs =>
    refine ⟨⟨(xs.foldl maxStep x).date, (xs.foldl maxStep x).high⟩, rfl, rfl, ?_⟩
    suffices hfold : xs.foldl maxStep x = (x :: xs).get ⟨i, hi⟩ by
      rw [hfold]; exact ⟨rfl, rfl⟩
    cases i with
    | zero =>
      show xs.foldl maxStep x = x
      refine foldl_maxStep_of_le xs x fun z hz => ?_
      rcases List.mem_iff_get.1 hz with ⟨⟨n, hn⟩, rfl⟩
      exact hmax (n + 1) (Nat.succ_lt_succ hn)
    | succ i' =>
      have hi' : i' < xs.length := Nat.lt_of_succ_lt_succ hi
      show xs.foldl maxStep x = xs.get ⟨i', hi'⟩
      refine foldl_maxStep_first xs x i' hi' ?_ ?_ ?_
      · exact hfirst 0 (Nat.succ_pos i')
      · exact fun k hk => hmax (k + 1) (Nat.succ_lt_succ hk)
      · exact fun k hk => hfirst (k + 1) (Nat.succ_lt_succ hk)

/-- Records with highs `[3, 7, 7]`: the tie is between positions 1 and 2
and position 1 is the first attaining the maximum. -/
def firstTieStocks : List Stock :=
  [⟨⟨2024, 1, 1⟩, 0, 0, 0, 3, 0⟩, ⟨⟨2024, 1, 2⟩, 0, 0, 0, 7, 0⟩,
   ⟨⟨2024, 1, 3⟩, 0, 0, 0, 7, 0⟩]

/-- C2 witness: the amended theorem applied at `i = 1`, `j = 2`. -/
theorem process_data_tiebreak_first_attainer_witness :
    ∃ r : Aggregation, Week1.process_data firstTieStocks = .ok r ∧
      Week2.process_data firstTieStocks = .ok r ∧
      r.date = (firstTieStocks.get ⟨1, by decide⟩).date ∧
      r.high = (firstTieStocks.get ⟨1, by decide⟩).high :=
  process_data_tiebreak_first_attainer firstTieStocks 1 2 (by decide)
    (by decide) (by decide) (by decide) (by decide) (by decide)

/-- C4: aggregating the empty record list fails with the
`EmptyInputError` kind in both pipeline variants; no `Aggregation` is
returned. -/
theorem process_data_empty_input_error :
    Week1.process_data [] = .error .EmptyInputError ∧
    Week2.process_data [] = .error .EmptyInputError :=
  ⟨rfl, rfl⟩

/-- C5: the week_2 cache writer performs exactly one put — the entry at
key `str(agg.date)` now holds `str(agg.high)`, and every other key is
untouched. -/
theorem put_redis_data_single_put (redis : RedisStore) (agg : Aggregation) :
    Week2.put_redis_data redis agg (pyStrDate agg.date)
        = some (pyStrFloat agg.high) ∧
    ∀ k : String, k ≠ pyStrDate agg.date →
      Week2.put_redis_data redis agg k = redis k := by
  constructor
  · simp [Week2.put_redis_data, redisPut]
  · intro k hk
    simp [Week2.put_redis_data, redisPut, hk]

/-- C5 witness: one put into an empty cache, checked at the written key
and at an unrelated key. -/
theorem put_redis_data_single_put_witness :
    Week2.put_redis_data (fun _ => none) ⟨⟨2024, 1, 2⟩, 105⟩
        (pyStrDate ⟨2024, 1, 2⟩) = some (pyStrFloat 105) ∧
    Week2.put_redis_data (fun _ => none) ⟨⟨2024, 1, 2⟩, 105⟩ "other-key"
        = none :=
  ⟨(put_redis_data_single_put (fun _ => none) ⟨⟨2024, 1, 2⟩, 105⟩).1,
   (put_redis_data_single_put (fun _ => none) ⟨⟨2024, 1, 2⟩, 105⟩).2
     "other-key" (by decide)⟩

/-- C9: the week_1 cache writer's body is `pass`: the cache is returned
unchanged and the op returns Python's `None` (`Unit` here). -/
theorem week1_put_redis_data_noop (redis : RedisStore) (agg : Aggregation) :
    (Week1.put_redis_data redis agg).1 = redis ∧
    (Week1.put_redis_data redis agg).2 = () :=
  ⟨rfl, rfl⟩

/-- C3: parsing the §8 example raw row maps the fields positionally in
source order `(date, close, volume, open, high, low)` — the second field
is `close`, not `open`, and the float-then-int coercion lands `500000`
in `volume`. -/
theorem from_list_positional_roundtrip :
    Stock.from_list
        ["2024/01/02", "100.0", "500000.0", "99.0", "105.0", "98.0"] =
      .ok { date := ⟨2024, 1, 2⟩, close := 100, volume := 500000,
            «open» := 99, high := 105, low := 98 } := by
  decide

/-- Reading aborts with an error as soon as any row fails to parse
(week_1's reader; week_2's is the identical fold, see
`week2_get_s3_data_eq_week1`). -/
theorem get_s3_data_error_of_mem (rows : List (List String))
    (row : List String) (e : Err) (hmem : row ∈ rows)
    (herr : Stock.from_list row = .error e) :
    ∃ e1, Week1.get_s3_data rows = .error e1 := by
  induction rows with
  | nil => exact absurd hmem (List.not_mem_nil row)
  | cons r rs ih =>
    rcases List.mem_cons.1 hmem with rfl | hmem'
    · exact ⟨e, by simp [Week1.get_s3_data, herr]⟩
    · cases hr : Stock.from_list r with
      | error e2 => exact ⟨e2, by simp [Week1.get_s3_data, hr]⟩
      | ok s =>
        rcases ih hmem' with ⟨e1, he1⟩
        exact ⟨e1, by simp [Week1.get_s3_data, hr, he1]⟩

/-- The week_2 reader is the same parse-all fold as the week_1 reader. -/
theorem week2_get_s3_data_eq_week1 (rows : List (List String)) :
    Week2.get_s3_data rows = Week1.get_s3_data rows := by
  induction rows with
  | nil => rfl
  | cons r rs ih => simp [Week1.get_s3_data, Week2.get_s3_data, ih]

/-- C6: if any row of the input fails to parse, both readers fail with an
error and return no list of records at all — rows are never skipped and
no partial list is produced, even for rows preceding the bad one. -/
theorem get_s3_data_aborts_on_parse_failure (rows : List (List String))
    (row : List String) (e : Err) (hmem : row ∈ rows)
    (herr : Stock.from_list row = .error e) :
    (∃ e1, Week1.get_s3_data rows = .error e1) ∧
    (∃ e2, Week2.get_s3_data rows = .error e2) ∧
    ∀ stocks : List Stock, Week1.get_s3_data rows ≠ .ok stocks ∧
      Week2.get_s3_data rows ≠ .ok stocks := by
  rcases get_s3_data_error_of_mem rows row e hmem herr with ⟨e1, he1⟩
  refine ⟨⟨e1, he1⟩, ⟨e1, ?_⟩, fun stocks => ⟨?_, ?_⟩⟩
  · rw [week2_get_s3_data_eq_week1, he1]
  · rw [he1]; exact fun hcon => Except.noConfusion hcon
  · rw [week2_get_s3_data_eq_week1, he1]
    exact fun hcon => Except.noConfusion hcon

/-- C6 witness: a good row followed by a row whose `close` text is
`"abc"`; the whole read fails, the good first row notwithstanding. -/
theorem get_s3_data_aborts_on_parse_failure_witness :
    (∃ e1, Week1.get_s3_data
        [["2024/01/02", "100.0", "500000.0", "99.0", "105.0", "98.0"],
         ["2024/01/03", "abc", "500000.0", "99.0", "105.0", "98.0"]] =
      .error e1) ∧
    (∃ e2, Week2.get_s3_data
        [["2024/01/02", "100.0", "500000.0", "99.0", "105.0", "98.0"],
         ["2024/01/03", "abc", "500000.0", "99.0", "105.0", "98.0"]] =
      .error e2) ∧
    ∀ stocks : List Stock,
      Week1.get_s3_data
          [["2024/01/02", "100.0", "500000.0", "99.0", "105.0", "98.0"],
           ["2024/01/03", "abc", "500000.0", "99.0", "105.0", "98.0"]] ≠
        .ok stocks ∧
      Week2.get_s3_data
          [["2024/01/02", "100.0", "500000.0", "99.0", "105.0", "98.0"],
           ["2024/01/03", "abc", "500000.0", "99.0", "105.0", "98.0"]] ≠
        .ok stocks :=
  get_s3_data_aborts_on_parse_failure _
    ["2024/01/03", "abc", "500000.0", "99.0", "105.0", "98.0"]
    .ParseError (by decide) (by decide)

/-- C7: a malformed numeric field — any of the five numeric positions
1..5 holding text that does not parse as a number — makes `from_list`
fail with the `ParseError` kind; the field is never coerced to a value. -/
theorem from_list_malformed_numeric_parse_error (row : List String)
    (k : Nat) (s : String) (hk1 : 1 ≤ k) (hk5 : k ≤ 5)
    (hget : row[k]? = some s) (hbad : parseFloat s = none) :
    Stock.from_list row = .error .ParseError := by
  interval_cases k
  · rcases row with _ | ⟨a, _ | ⟨b, rest⟩⟩ <;> simp at hget
    subst hget
    cases hpd : parseDate a <;>
      simp [Stock.from_list, getField, hpd, hbad]
  · rcases row with _ | ⟨a, _ | ⟨b, _ | ⟨c, rest⟩⟩⟩ <;> simp at hget
    subst hget
    cases hpd : parseDate a <;> cases hpb : parseFloat b <;>
      simp [Stock.from_list, getField, hpd, hpb, hbad]
  · rcases row with _ | ⟨a, _ | ⟨b, _ | ⟨c, _ | ⟨d, rest⟩⟩⟩⟩ <;> simp at hget
    subst hget
    cases hpd : parseDate a <;> cases hpb : parseFloat b <;>
      cases hpc : parseFloat c <;>
      simp [Stock.from_list, getField, hpd, hpb, hpc, hbad]
  · rcases row with _ | ⟨a, _ | ⟨b, _ | ⟨c, _ | ⟨d, _ | ⟨e, rest⟩⟩⟩⟩⟩ <;>
      simp at hget
    subst hget
    cases hpd : parseDate a <;> cases hpb : parseFloat b <;>
      cases hpc : parseFloat c <;> cases hpe : parseFloat d <;>
      simp [Stock.from_list, getField, hpd, hpb, hpc, hpe, hbad]
  · rcases row with _ | ⟨a, _ | ⟨b, _ | ⟨c, _ | ⟨d, _ | ⟨e, _ | ⟨f, rest⟩⟩⟩⟩⟩⟩ <;>
      simp at hget
    subst hget
    cases hpd : parseDate a <;> cases hpb : parseFloat b <;>
      cases hpc : parseFloat c <;> cases hpe : parseFloat d <;>
      cases hph : parseFloat e <;>
      simp [Stock.from_list, getField, hpd, hpb, hpc, hpe, hph, hbad]

/-- C7 witness: `"abc"` in the close position. -/
theorem from_list_malformed_numeric_parse_error_witness :
    Stock.from_list
        ["2024/01/02", "abc", "500000.0", "99.0", "105.0", "98.0"] =
      .error .ParseError :=
  from_list_malformed_numeric_parse_error
    ["2024/01/02", "abc", "500000.0", "99.0", "105.0", "98.0"] 1 "abc"
    (by decide) (by decide) (by decide) (by decide)

/-- Inversion on a successful parse: the record's `volume` is the
float-then-int (truncating) coercion of the text in position 2. -/
theorem from_list_ok_volume (row : List String) (st : Stock) (s : String)
    (q : ℚ) (h : Stock.from_list row = .ok st) (hget : row[2]? = some s)
    (hq : parseFloat s = some q) : st.volume = truncQ q := by
  unfold Stock.from_list at h
  rcases hg0 : getField row 0 with e0 | s0
  · rw [hg0] at h; exact absurd h (by simp)
  simp only [hg0] at h
  rcases hpd : parseDate s0 with _ | da
  · rw [hpd] at h; exact absurd h (by simp)
  simp only [hpd] at h
  rcases hg1 : getField row 1 with e1 | s1
  · rw [hg1] at h; exact absurd h (by simp)
  simp only [hg1] at h
  rcases hpb : parseFloat s1 with _ | qb
  · rw [hpb] at h; exact absurd h (by simp)
  simp only [hpb] at h
  have hg2 : getField row 2 = .ok s := by simp [getField, hget]
  simp only [hg2, hq] at h
  rcases hg3 : getField row 3 with e3 | s3
  · rw [hg3] at h; exact absurd h (by simp)
  simp only [hg3] at h
  rcases hpo : parseFloat s3 with _ | qo
  · rw [hpo] at h; exact absurd h (by simp)
  simp only [hpo] at h
  rcases hg4 : getField row 4 with e4 | s4
  · rw [hg4] at h; exact absurd h (by simp)
  simp only [hg4] at h
  rcases hph : parseFloat s4 with _ | qh
  · rw [hph] at h; exact absurd h (by simp)
  simp only [hph] at h
  rcases hg5 : getField row 5 with e5 | s5
  · rw [hg5] at h; exact absurd h (by simp)
  simp only [hg5] at h
  rcases hpl : parseFloat s5 with _ | ql
  · rw [hpl] at h; exact absurd h (by simp)
  simp only [hpl] at h
  rw [← Except.ok.inj h]

/-- C8 counterexample: a raw row whose volume text denotes a negative
number parses successfully — through the reader as well — into a record
with negative `volume`; the reader enforces no non-negativity. -/
theorem from_list_negative_volume_counterexample :
    Week1.get_s3_data
        [["2024/01/02", "100.0", "-500000.0", "99.0", "105.0", "98.0"]] =
      .ok [⟨⟨2024, 1, 2⟩, 100, -500000, 99, 105, 98⟩] ∧
    Stock.from_list
        ["2024/01/02", "100.0", "-500000.0", "99.0", "105.0", "98.0"] =
      .ok ⟨⟨2024, 1, 2⟩, 100, -500000, 99, 105, 98⟩ ∧
    (⟨⟨2024, 1, 2⟩, 100, -500000, 99, 105, 98⟩ : Stock).volume < 0 := by
  decide

/-- C8 (amended): a record produced by a successful parse has
non-negative `volume` whenever the row's volume text denotes a
non-negative number (the reader truncates but never flips sign). -/
theorem from_list_volume_nonneg_of_nonneg_text (row : List String)
    (st : Stock) (s : String) (q : ℚ) (h : Stock.from_list row = .ok st)
    (hget : row[2]? = some s) (hq : parseFloat s = some q)
    (hq0 : 0 ≤ q) : 0 ≤ st.volume := by
  rw [from_list_ok_volume row st s q h hget hq]
  unfold truncQ
  exact Int.tdiv_nonneg (Rat.num_nonneg.2 hq0) (Int.natCast_nonneg q.den)

/-- C8 witness: the amended theorem at the §8 example row. -/
theorem from_list_volume_nonneg_of_nonneg_text_witness :
    0 ≤ (Stock.mk ⟨2024, 1, 2⟩ 100 500000 99 105 98).volume :=
  from_list_volume_nonneg_of_nonneg_text
    ["2024/01/02", "100.0", "500000.0", "99.0", "105.0", "98.0"]
    (Stock.mk ⟨2024, 1, 2⟩ 100 500000 99 105 98) "500000.0" 500000
    (by decide) (by decide) (by decide) (by decide)

/-- C10: a volume field denoting a float with a non-zero fractional part
(denominator ≠ 1) parses successfully, and the `volume` is the value
truncated toward zero (`Int.tdiv` of numerator by denominator), not a
failure and not a rounding. -/
theorem from_list_fractional_volume_truncates (a b c d e f : String)
    (rest : List String) (da : Date) (qb qc qd qe qf : ℚ)
    (hpa : parseDate a = some da) (hpb : parseFloat b = some qb)
    (hpc : parseFloat c = some qc) (hpd : parseFloat d = some qd)
    (hpe : parseFloat e = some qe) (hpf : parseFloat f = some qf)
    (_hfrac : qc.den ≠ 1) :
    Stock.from_list (a :: b :: c :: d :: e :: f :: rest) =
      .ok ⟨da, qb, qc.num.tdiv (qc.den : Int), qd, qe, qf⟩ := by
  simp [Stock.from_list, getField, truncQ, hpa, hpb, hpc, hpd, hpe, hpf]

/-- C10 witness: volume text `"500000.7"` truncates to `500000`. -/
theorem from_list_fractional_volume_truncates_witness :
    Stock.from_list
        ["2024/01/02", "100.0", "500000.7", "99.0", "105.0", "98.0"] =
      .ok ⟨⟨2024, 1, 2⟩, 100,
        (mkRat 5000007 10).num.tdiv ((mkRat 5000007 10).den : Int),
        99, 105, 98⟩ ∧
    (mkRat 5000007 10).num.tdiv ((mkRat 5000007 10).den : Int) = 500000 ∧
    (mkRat 5000007 10).den ≠ 1 :=
  ⟨from_list_fractional_volume_truncates "2024/01/02" "100.0" "500000.7"
      "99.0" "105.0" "98.0" [] ⟨2024, 1, 2⟩ 100 (mkRat 5000007 10) 99 105 98
      (by decide) (by decide) (by decide) (by decide) (by decide) (by decide)
      (by decide),
    by decide, by decide⟩
